import Mathlib

/-!
Verification of `scripts/check_internal_links.py`, the internal-Markdown-link
checker of this repository.

The script is embedded shallowly:

* Python strings are Lean `String`s; the string operations the script uses
  (`str.strip`, `str.startswith`, `str.endswith`, `str.split`, `str.lstrip`)
  are reimplemented below on the underlying `List Char`.
* `os.path.join` and `os.path.normpath` are the POSIX implementations of the
  Python standard library, transcribed for the string case.
* The file system is a finite tree `FTree`; `os.walk` (with the in-place
  pruning of `skip_dirs`), `os.path.isfile` and `os.path.isdir` are evaluated
  against that tree.  A path that still contains a `..` component after
  normalization escapes the scanned root and is modelled as nonexistent.
* The regex `\[[^\]]*\]\(([^)]+)\)` together with `finditer` is modelled by
  `matchLink` / `findLinks`: both character classes exclude exactly the
  delimiter that must follow them, so the greedy match at a position is the
  maximal run of non-delimiter characters and no backtracking can produce a
  different match; `finditer` tries each position left to right and resumes
  after the end of a successful match.
-/

namespace LinkCheck

/-- Python whitespace characters stripped by `str.strip()` (the ASCII ones;
the script's link targets are ASCII). -/
def isPySpace (c : Char) : Bool :=
  c = ' ' ∨ c = '\t' ∨ c = '\n' ∨ c = '\r' ∨ c = '\x0b' ∨ c = '\x0c'

/-- `str.strip()`: drop leading and trailing whitespace. -/
def pyStrip (s : String) : String :=
  ⟨(((s.data.dropWhile isPySpace).reverse).dropWhile isPySpace).reverse⟩

/-- `s.startswith(p)`. -/
def startsWith2 (s p : String) : Bool :=
  p.data.isPrefixOf s.data

/-- `s.endswith(p)`. -/
def endsWith2 (s p : String) : Bool :=
  p.data.isSuffixOf s.data

/-- `target.split('#', 1)[0]`: the portion of the target before the first
`#` (the whole target when it has no `#`). -/
def takeBeforeHash (s : String) : String :=
  ⟨s.data.takeWhile (fun c => c ≠ '#')⟩

/-- `path.lstrip('/')`: drop every leading `/`. -/
def dropSlashes (s : String) : String :=
  ⟨s.data.dropWhile (fun c => c = '/')⟩

/-- `str.split(sep)` for a one-character separator, on character lists. -/
def splitCharAux (sep : Char) : List Char → List Char → List (List Char)
  | [], acc => [acc.reverse]
  | c :: cs, acc =>
    if c = sep then acc.reverse :: splitCharAux sep cs []
    else splitCharAux sep cs (c :: acc)

/-- `os.path.join(a, b)` (POSIX, two arguments). -/
def pyJoin (a b : String) : String :=
  if startsWith2 b "/" then b
  else if a = "" ∨ endsWith2 a "/" then a ++ b
  else a ++ "/" ++ b

/-- `os.path.normpath(p)` (POSIX): fold the `/`-separated components,
dropping empty and `.` components and cancelling `..` against a previous
component, preserving one or two initial slashes. -/
def normpath (p : String) : String :=
  if p = "" then "." else
  let slashes : Nat :=
    if startsWith2 p "/" then
      if startsWith2 p "//" ∧ ¬ startsWith2 p "///" then 2 else 1
    else 0
  let comps := splitCharAux '/' p.data []
  let newComps := comps.foldl (fun acc comp =>
    if comp = [] ∨ comp = ['.'] then acc
    else if comp ≠ ['.', '.'] ∨ (slashes = 0 ∧ acc = []) ∨
        acc.getLast? = some ['.', '.'] then acc ++ [comp]
    else if acc ≠ [] then acc.dropLast
    else acc) []
  let out := List.replicate slashes '/' ++ List.intercalate ['/'] newComps
  if out = [] then "." else ⟨out⟩

/-- The script's constant `ROOT = '.'`. -/
def ROOT : String := "."

/-- The file-system queries the script performs (`os.path.isfile`,
`os.path.isdir`). -/
structure FS where
  isfile : String → Bool
  isdir : String → Bool

/-- Lines 50–59: the three-tier existence check for a resolved candidate. -/
def linkExists (fs : FS) (candidate : String) : Bool :=
  if fs.isfile candidate then true
  else if fs.isfile (candidate ++ ".md") then true
  else if fs.isdir candidate && fs.isfile (pyJoin candidate "README.md") then true
  else false

/-- Lines 44–48: the resolved candidate path of a surviving reference. -/
def candidateOf (dirpath path : String) : String :=
  if startsWith2 path "/" then normpath (pyJoin ROOT (dropSlashes path))
  else normpath (pyJoin dirpath path)

/-- Line 34: the external-link test on the stripped target. -/
def isExternal (t : String) : Bool :=
  startsWith2 t "http://" || startsWith2 t "https://" ||
    startsWith2 t "mailto:" || startsWith2 t "javascript:"

/-- What the body of the `finditer` loop does with one extracted target. -/
inductive RefOutcome where
  | skipped : RefOutcome
  | ok : String → RefOutcome
  | missingRef : String → RefOutcome
deriving DecidableEq

/-- Lines 32–59: strip the raw captured target, apply the skip rules in
order, resolve the survivor and test existence.  The Python locals are
inlined: `target` is `pyStrip rawTarget`, `path` is
`takeBeforeHash target` and `candidate` is `candidateOf dirpath path`. -/
def classify (fs : FS) (dirpath : String) (rawTarget : String) : RefOutcome :=
  if isExternal (pyStrip rawTarget) then RefOutcome.skipped
  else if startsWith2 (pyStrip rawTarget) "!" then RefOutcome.skipped
  else if takeBeforeHash (pyStrip rawTarget) = "" ∨
      startsWith2 (takeBeforeHash (pyStrip rawTarget)) "#" then RefOutcome.skipped
  else if linkExists fs (candidateOf dirpath (takeBeforeHash (pyStrip rawTarget))) then
    RefOutcome.ok (candidateOf dirpath (takeBeforeHash (pyStrip rawTarget)))
  else RefOutcome.missingRef (candidateOf dirpath (takeBeforeHash (pyStrip rawTarget)))

/-- The accumulating scan state: `checked` and the `missing` list of
`(source file path, stripped target, resolved candidate)` triples. -/
abbrev ScanState := Nat × List (String × String × String)

/-- Lines 61–63: one loop iteration's effect on the scan state. -/
def processTarget (fs : FS) (dirpath fp : String) (st : ScanState)
    (rawTarget : String) : ScanState :=
  match classify fs dirpath rawTarget with
  | RefOutcome.skipped => st
  | RefOutcome.ok _ => (st.1 + 1, st.2)
  | RefOutcome.missingRef cand => (st.1 + 1, st.2 ++ [(fp, pyStrip rawTarget, cand)])

/-- Lines 65–73: the final report, rendered as the full stdout text (each
`print` appends a newline) paired with the exit status. -/
def reportOut (checked : Nat) (missing : List (String × String × String)) :
    String × Nat :=
  if missing.isEmpty then
    ("Checked " ++ Nat.repr checked ++
      " links: no missing internal markdown links found.\n", 0)
  else
    ("Checked " ++ Nat.repr checked ++ " links: " ++ Nat.repr missing.length ++
        " missing internal links:\n\n" ++
        String.join (missing.map (fun r =>
          "In " ++ r.1 ++ ": -> " ++ r.2.1 ++ "  (resolved: " ++ r.2.2 ++ ")\n")),
      2)

/-- One attempt of the regex `\[[^\]]*\]\(([^)]+)\)` at the current
position: succeed only if the text starts with `[`, a run of non-`]`
characters, `](`, a nonempty run of non-`)` characters, and `)`; return the
captured group together with the text after the match.  (`dropWhile`
guarantees that the first character after each run, when present, is the
delimiter itself, so only `(` needs an explicit test.) -/
def matchLink : List Char → Option (List Char × List Char)
  | [] => none
  | c :: rest =>
    if c = '[' then
      match rest.dropWhile (fun x => x ≠ ']') with
      | [] => none
      | _ :: rest1 =>
        match rest1 with
        | [] => none
        | c2 :: rest2 =>
          if c2 = '(' then
            match rest2.dropWhile (fun x => x ≠ ')') with
            | [] => none
            | _ :: rest4 =>
              if rest2.takeWhile (fun x => x ≠ ')') = [] then none
              else some (rest2.takeWhile (fun x => x ≠ ')'), rest4)
          else none
    else none

theorem matchLink_after_lt (s tgt after : List Char)
    (h : matchLink s = some (tgt, after)) : after.length < s.length := by
  match s with
  | [] => simp [matchLink] at h
  | c :: rest =>
    simp only [matchLink] at h
    split at h
    · split at h
      · exact absurd h (by simp)
      · rename_i a rest1 heq1
        split at h
        · exact absurd h (by simp)
        · rename_i c2 rest2
          split at h
          · split at h
            · exact absurd h (by simp)
            · rename_i b rest4 heq2
              split at h
              · exact absurd h (by simp)
              · have hsome := Option.some.inj h
                have hafter : after = rest4 := (Prod.mk.injEq _ _ _ _ ▸ hsome).2.symm
                have s1 : (a :: c2 :: rest2).length ≤ rest.length := by
                  have hs := (List.dropWhile_suffix (l := rest)
                    (fun x => decide (x ≠ ']'))).length_le
                  rw [heq1] at hs
                  exact hs
                have s2 : (b :: rest4).length ≤ rest2.length := by
                  have hs := (List.dropWhile_suffix (l := rest2)
                    (fun x => decide (x ≠ ')'))).length_le
                  rw [heq2] at hs
                  exact hs
                subst hafter
                simp only [List.length_cons] at s1 s2 ⊢
                omega
          · exact absurd h (by simp)
    · exact absurd h (by simp)

/-- `link_re.finditer(txt)` followed by taking `m.group(1)` of every match:
scan left to right, at each position attempt a match; on success emit the
captured target and resume after the match, otherwise advance one
character. -/
def findLinks : List Char → List (List Char)
  | [] => []
  | c :: rest =>
    match h : matchLink (c :: rest) with
    | some (tgt, after) => tgt :: findLinks after
    | none => findLinks rest
termination_by s => s.length
decreasing_by
  · exact matchLink_after_lt _ _ _ h
  · simp

/-- Lines 31–63: fold the loop body over every target extracted from one
document's text (given as its character list). -/
def processDocChars (fs : FS) (dirpath fp : String) (chars : List Char)
    (st : ScanState) : ScanState :=
  (findLinks chars).foldl (fun st tgt => processTarget fs dirpath fp st ⟨tgt⟩) st

/-- A file-system tree: a file with its text, or a directory with its
entries in the order the operating system enumerates them. -/
inductive FTree where
  | file : String → FTree
  | dir : List (String × FTree) → FTree

/-- The script's `skip_dirs = {'.git', 'node_modules', 'db'}`. -/
def skipDirs : List String := [".git", "node_modules", "db"]

/-- The files `os.walk` reports for one directory: `(dirpath, name, text)`
for each regular-file entry, in enumeration order. -/
def filesOf (dirpath : String) (entries : List (String × FTree)) :
    List (String × String × String) :=
  entries.filterMap (fun e =>
    match e.2 with
    | FTree.file txt => some (dirpath, e.1, txt)
    | FTree.dir _ => none)

/-- The recursive part of `os.walk` (lines 22–24): after the files of a
directory, descend into each subdirectory in order, skipping those whose
name is in `skip_dirs` (the in-place pruning of `dirs`). -/
def walkChildren (dirpath : String) :
    List (String × FTree) → List (String × String × String)
  | [] => []
  | (_, FTree.file _) :: es => walkChildren dirpath es
  | (n, FTree.dir sub) :: es =>
    (if skipDirs.contains n then []
     else filesOf (pyJoin dirpath n) sub ++ walkChildren (pyJoin dirpath n) sub)
      ++ walkChildren dirpath es

/-- `os.walk(ROOT)` flattened to the sequence of files it reports, in
traversal order: the root's files first, then each non-skipped subtree. -/
def walk (dirpath : String) (entries : List (String × FTree)) :
    List (String × String × String) :=
  filesOf dirpath entries ++ walkChildren dirpath entries

/-- First in `(n, t) :: es` wins, as on a real file system where entry
names in one directory are unique. -/
def findEntry (name : String) : List (String × FTree) → Option FTree
  | [] => none
  | (n, t) :: es => if n = name then some t else findEntry name es

/-- Follow a component path down the tree. -/
def resolveComps : FTree → List String → Option FTree
  | t, [] => some t
  | FTree.file _, _ :: _ => none
  | FTree.dir es, c :: cs =>
    match findEntry c es with
    | some t => resolveComps t cs
    | none => none

/-- Look a (normalized, `ROOT`-relative) path up in the tree.  Empty and
`.` components are transparent; a path that still contains `..` escapes
the scanned root and is modelled as nonexistent. -/
def lookupPath (root : List (String × FTree)) (p : String) : Option FTree :=
  let comps := ((splitCharAux '/' p.data []).map
    (fun l => (⟨l⟩ : String))).filter (fun c => c ≠ "" ∧ c ≠ ".")
  if comps.contains ".." then none
  else resolveComps (FTree.dir root) comps

/-- `os.path.isfile` / `os.path.isdir` evaluated against the tree. -/
def treeFS (root : List (String × FTree)) : FS where
  isfile p :=
    match lookupPath root p with
    | some (FTree.file _) => true
    | _ => false
  isdir p :=
    match lookupPath root p with
    | some (FTree.dir _) => true
    | _ => false

/-- The `.md` files the script opens, in the order it opens them
(lines 25–27). -/
def scannedDocs (root : List (String × FTree)) :
    List (String × String × String) :=
  (walk ROOT root).filter (fun r => endsWith2 r.2.1 ".md")

/-- Lines 19–63: the whole scan, from the tree to the final
`(checked, missing)` state. -/
def scanTree (root : List (String × FTree)) : ScanState :=
  (scannedDocs root).foldl
    (fun st r => processDocChars (treeFS root) r.1 (pyJoin r.1 r.2.1) r.2.2.data st)
    (0, [])

/-- The whole script: scan, then report and exit (stdout text, exit
status). -/
def runScript (root : List (String × FTree)) : String × Nat :=
  reportOut (scanTree root).1 (scanTree root).2

/-! ### Helper lemmas -/

theorem classify_ok_exists (fs : FS) (d t c : String)
    (h : classify fs d t = RefOutcome.ok c) : linkExists fs c = true := by
  unfold classify at h
  split at h
  · exact absurd h (by simp)
  · split at h
    · exact absurd h (by simp)
    · split at h
      · exact absurd h (by simp)
      · split at h <;> rename_i hex
        · injection h with h'
          exact h' ▸ hex
        · exact absurd h (by simp)

theorem classify_missing_not_exists (fs : FS) (d t c : String)
    (h : classify fs d t = RefOutcome.missingRef c) : linkExists fs c = false := by
  unfold classify at h
  split at h
  · exact absurd h (by simp)
  · split at h
    · exact absurd h (by simp)
    · split at h
      · exact absurd h (by simp)
      · split at h <;> rename_i hex
        · exact absurd h (by simp)
        · injection h with h'
          simp only [Bool.not_eq_true] at hex
          exact h' ▸ hex

theorem processTarget_of_skipped (fs : FS) (d fp t : String) (st : ScanState)
    (h : classify fs d t = RefOutcome.skipped) : processTarget fs d fp st t = st := by
  unfold processTarget
  rw [h]

theorem processTarget_of_ok (fs : FS) (d fp t c : String) (st : ScanState)
    (h : classify fs d t = RefOutcome.ok c) :
    processTarget fs d fp st t = (st.1 + 1, st.2) := by
  unfold processTarget
  rw [h]

theorem processTarget_of_missing (fs : FS) (d fp t c : String) (st : ScanState)
    (h : classify fs d t = RefOutcome.missingRef c) :
    processTarget fs d fp st t = (st.1 + 1, st.2 ++ [(fp, pyStrip t, c)]) := by
  unfold processTarget
  rw [h]

theorem takeBeforeHash_not_hash (s : String) :
    startsWith2 (takeBeforeHash s) "#" = false := by
  unfold startsWith2 takeBeforeHash
  cases hd : s.data.takeWhile (fun c => decide (c ≠ '#')) with
  | nil => simp [List.isPrefixOf]
  | cons a l =>
    have ha : a ∈ s.data.takeWhile (fun c => decide (c ≠ '#')) := by
      rw [hd]; exact List.mem_cons_self _ _
    have hp := List.mem_takeWhile_imp ha
    simp only [decide_eq_true_eq] at hp
    show List.isPrefixOf ['#'] (a :: l) = false
    simp [List.isPrefixOf, Ne.symm hp]

theorem takeBeforeHash_of_hash (s : String) (h : startsWith2 s "#" = true) :
    takeBeforeHash s = "" := by
  unfold startsWith2 at h
  cases hd : s.data with
  | nil => rw [hd] at h; simp [List.isPrefixOf] at h
  | cons a l =>
    rw [hd] at h
    have ha : a = '#' := by
      have h2 : List.isPrefixOf ['#'] (a :: l) = true := h
      simp [List.isPrefixOf] at h2
      exact h2.symm
    unfold takeBeforeHash
    rw [hd, ha]
    show (⟨List.takeWhile (fun c => decide (c ≠ '#')) ('#' :: l)⟩ : String) = ""
    simp [List.takeWhile_cons]

theorem classify_survives (fs : FS) (d t : String)
    (hx : isExternal (pyStrip t) = false)
    (hb : startsWith2 (pyStrip t) "!" = false)
    (hp : takeBeforeHash (pyStrip t) ≠ "") :
    classify fs d t =
      (if linkExists fs (candidateOf d (takeBeforeHash (pyStrip t))) then
        RefOutcome.ok (candidateOf d (takeBeforeHash (pyStrip t)))
      else RefOutcome.missingRef (candidateOf d (takeBeforeHash (pyStrip t)))) := by
  unfold classify
  rw [hx, hb]
  simp only [Bool.false_eq_true, if_false]
  rw [if_neg]
  intro hor
  rcases hor with h | h
  · exact hp h
  · rw [takeBeforeHash_not_hash] at h
    exact absurd h (by simp)

/-! ### Claims -/

/-- C1: the three-tier existence check: a candidate is judged existing iff
one of the three checks holds (existing regular file, existing regular
file after appending `.md`, or existing directory containing `README.md`);
a reference classified `ok` has a candidate passing at least one check and
a reference classified unresolved has a candidate failing all three. -/
theorem c1_resolution_three_checks :
    (∀ (fs : FS) (c : String),
      linkExists fs c = true ↔
        (fs.isfile c = true ∨ fs.isfile (c ++ ".md") = true ∨
          (fs.isdir c = true ∧ fs.isfile (pyJoin c "README.md") = true)))
    ∧ (∀ (fs : FS) (d t c : String), classify fs d t = RefOutcome.ok c →
        linkExists fs c = true)
    ∧ (∀ (fs : FS) (d t c : String), classify fs d t = RefOutcome.missingRef c →
        linkExists fs c = false) := by
  refine ⟨?_, classify_ok_exists, classify_missing_not_exists⟩
  intro fs c
  simp only [linkExists]
  split <;> rename_i h1
  · simp [h1]
  · split <;> rename_i h2
    · simp [h1, h2]
    · split <;> rename_i h3
      · simp only [Bool.and_eq_true] at h3
        simp [h1, h2, h3]
      · simp only [Bool.and_eq_true, not_and] at h3
        simp only [Bool.not_eq_true] at h1 h2
        simp [h1, h2]
        intro hd
        simpa using h3 hd

theorem c1_witness :
    linkExists ⟨fun _ => false, fun _ => false⟩ "x" = false :=
  c1_resolution_three_checks.2.2 ⟨fun _ => false, fun _ => false⟩ "." "x" "x" (by decide)

/-- C2: a surviving path starting with `/` resolves against the scan root
with its leading slashes stripped; any other surviving path resolves
against the directory of the source document; `/guide` with `guide.md` at
the root resolves successfully. -/
theorem c2_candidate_resolution :
    (∀ d p : String, startsWith2 p "/" = true →
      candidateOf d p = normpath (pyJoin ROOT (dropSlashes p)))
    ∧ (∀ d p : String, startsWith2 p "/" = false →
      candidateOf d p = normpath (pyJoin d p))
    ∧ classify (treeFS [("guide.md", FTree.file "")]) "." "/guide" =
        RefOutcome.ok "guide" := by
  refine ⟨?_, ?_, by decide⟩
  · intro d p h
    simp [candidateOf, h]
  · intro d p h
    simp [candidateOf, h]

theorem c2_witness :
    candidateOf "./docs" "/x" = normpath (pyJoin ROOT (dropSlashes "/x")) ∧
    candidateOf "./docs" "y" = normpath (pyJoin "./docs" "y") :=
  ⟨c2_candidate_resolution.1 "./docs" "/x" (by decide),
   c2_candidate_resolution.2.1 "./docs" "y" (by decide)⟩


/-- C3: a link whose trimmed target begins with `http://`, `https://`,
`mailto:` or `javascript:`, and likewise one beginning with `!`, is skipped
before any resolution and leaves the checked count and the unresolved
sequence unchanged. -/
theorem c3_external_and_bang_skipped (fs : FS) (d fp t : String) (st : ScanState)
    (h : startsWith2 (pyStrip t) "http://" = true ∨
      startsWith2 (pyStrip t) "https://" = true ∨
      startsWith2 (pyStrip t) "mailto:" = true ∨
      startsWith2 (pyStrip t) "javascript:" = true ∨
      startsWith2 (pyStrip t) "!" = true) :
    classify fs d t = RefOutcome.skipped ∧ processTarget fs d fp st t = st := by
  have hc : classify fs d t = RefOutcome.skipped := by
    unfold classify
    rcases h with h | h | h | h | h
    · simp [isExternal, h]
    · simp [isExternal, h]
    · simp [isExternal, h]
    · simp [isExternal, h]
    · by_cases hx : isExternal (pyStrip t) = true
      · simp [hx]
      · simp [hx, h]
  exact ⟨hc, processTarget_of_skipped fs d fp t st hc⟩

theorem c3_witness :
    classify ⟨fun _ => false, fun _ => false⟩ "." "http://example.com" =
        RefOutcome.skipped ∧
    processTarget ⟨fun _ => false, fun _ => false⟩ "." "./a.md" (0, [])
        "http://example.com" = (0, []) :=
  c3_external_and_bang_skipped ⟨fun _ => false, fun _ => false⟩ "." "./a.md"
    "http://example.com" (0, []) (Or.inl (by decide))

/-- C4: past the external and `!` checks, the target is split on the first
`#` and only the portion before it is kept as the path; when that portion
is empty -- in particular whenever the target started with `#` -- the
reference is an intra-document anchor and is skipped without touching the
state, and otherwise it is counted. -/
theorem c4_fragment_and_anchor_skip (fs : FS) (d fp t : String) (st : ScanState)
    (hx : isExternal (pyStrip t) = false)
    (hb : startsWith2 (pyStrip t) "!" = false) :
    (takeBeforeHash (pyStrip t)).data =
        (pyStrip t).data.takeWhile (fun c => c ≠ '#')
    ∧ (startsWith2 (pyStrip t) "#" = true → takeBeforeHash (pyStrip t) = "")
    ∧ (takeBeforeHash (pyStrip t) = "" →
        classify fs d t = RefOutcome.skipped ∧ processTarget fs d fp st t = st)
    ∧ (takeBeforeHash (pyStrip t) ≠ "" →
        (processTarget fs d fp st t).1 = st.1 + 1) := by
  refine ⟨rfl, takeBeforeHash_of_hash (pyStrip t), ?_, ?_⟩
  · intro hp
    have hc : classify fs d t = RefOutcome.skipped := by
      unfold classify
      rw [hx, hb]
      simp [hp]
    exact ⟨hc, processTarget_of_skipped fs d fp t st hc⟩
  · intro hp
    have hc := classify_survives fs d t hx hb hp
    by_cases he : linkExists fs (candidateOf d (takeBeforeHash (pyStrip t))) = true
    · rw [if_pos he] at hc
      rw [processTarget_of_ok fs d fp t _ st hc]
    · rw [if_neg he] at hc
      rw [processTarget_of_missing fs d fp t _ st hc]

theorem c4_witness :
    (classify ⟨fun _ => false, fun _ => false⟩ "." "#intro" = RefOutcome.skipped ∧
      processTarget ⟨fun _ => false, fun _ => false⟩ "." "./a.md" (0, []) "#intro" =
        (0, [])) ∧
    (processTarget ⟨fun _ => false, fun _ => false⟩ "." "./a.md" (0, []) "x#frag").1 =
      0 + 1 :=
  ⟨(c4_fragment_and_anchor_skip ⟨fun _ => false, fun _ => false⟩ "." "./a.md"
      "#intro" (0, []) (by decide) (by decide)).2.2.1 (by decide),
   (c4_fragment_and_anchor_skip ⟨fun _ => false, fun _ => false⟩ "." "./a.md"
      "x#frag" (0, []) (by decide) (by decide)).2.2.2 (by decide)⟩


theorem foldl_inv {α β : Type} (P : β → Prop) (f : β → α → β)
    (hf : ∀ st a, P st → P (f st a)) :
    ∀ (l : List α) (st : β), P st → P (l.foldl f st) := by
  intro l
  induction l with
  | nil => intro st h; exact h
  | cons a l ih =>
    intro st h
    exact ih (f st a) (hf st a h)

theorem processTarget_preserves_le (fs : FS) (d fp t : String) (st : ScanState)
    (h : st.2.length ≤ st.1) :
    (processTarget fs d fp st t).2.length ≤ (processTarget fs d fp st t).1 := by
  unfold processTarget
  split
  · exact h
  · exact Nat.le_succ_of_le h
  · simp only [List.length_append, List.length_cons, List.length_nil]
    omega

/-- C5: every surviving reference increments the checked counter exactly
once whether it resolves or not, a failing reference is appended to the
unresolved sequence as the triple (source path, stripped target,
candidate), and consequently at end of run the number of unresolved
entries never exceeds the checked count. -/
theorem c5_counting :
    (∀ (fs : FS) (d fp t : String) (st : ScanState),
      classify fs d t = RefOutcome.skipped → processTarget fs d fp st t = st)
    ∧ (∀ (fs : FS) (d fp t c : String) (st : ScanState),
      classify fs d t = RefOutcome.ok c →
        processTarget fs d fp st t = (st.1 + 1, st.2))
    ∧ (∀ (fs : FS) (d fp t c : String) (st : ScanState),
      classify fs d t = RefOutcome.missingRef c →
        processTarget fs d fp st t = (st.1 + 1, st.2 ++ [(fp, pyStrip t, c)]))
    ∧ (∀ root : List (String × FTree),
        (scanTree root).2.length ≤ (scanTree root).1) := by
  refine ⟨processTarget_of_skipped, processTarget_of_ok, processTarget_of_missing, ?_⟩
  intro root
  unfold scanTree
  apply foldl_inv (fun st : ScanState => st.2.length ≤ st.1)
  · intro st r h
    unfold processDocChars
    apply foldl_inv (fun st : ScanState => st.2.length ≤ st.1)
    · intro st' tgt h'
      exact processTarget_preserves_le _ _ _ _ _ h'
    · exact h
  · exact Nat.le_refl 0

theorem c5_witness :
    processTarget ⟨fun _ => false, fun _ => false⟩ "." "./a.md" (0, []) "missing" =
      (0 + 1, [] ++ [("./a.md", pyStrip "missing", "missing")]) :=
  c5_counting.2.2.1 ⟨fun _ => false, fun _ => false⟩ "." "./a.md" "missing"
    "missing" (0, []) (by decide)

/-- C6: with no unresolved links the program prints exactly the success
line and exits with status 0; otherwise it prints the failure summary, a
blank line and one diagnostic line per failure in order, and exits with
status 2, which is distinct from 0 (the exit status is 0 iff the scan
found nothing missing and 2 iff it did). -/
theorem c6_report_and_exit (checked : Nat) (missing : List (String × String × String)) :
    (missing = [] →
      reportOut checked missing =
        ("Checked " ++ Nat.repr checked ++
          " links: no missing internal markdown links found.\n", 0))
    ∧ (missing ≠ [] →
      reportOut checked missing =
        ("Checked " ++ Nat.repr checked ++ " links: " ++ Nat.repr missing.length ++
          " missing internal links:\n\n" ++
          String.join (missing.map (fun r =>
            "In " ++ r.1 ++ ": -> " ++ r.2.1 ++ "  (resolved: " ++ r.2.2 ++ ")\n")), 2))
    ∧ (∀ root : List (String × FTree),
        ((runScript root).2 = 0 ↔ (scanTree root).2 = []) ∧
        ((runScript root).2 = 2 ↔ (scanTree root).2 ≠ [])) := by
  refine ⟨?_, ?_, ?_⟩
  · intro h
    subst h
    rfl
  · intro h
    unfold reportOut
    rw [if_neg (by simpa using h)]
  · intro root
    unfold runScript reportOut
    by_cases h : (scanTree root).2 = []
    · rw [if_pos (by simpa using h)]
      simp [h]
    · rw [if_neg (by simpa using h)]
      simp [h]

theorem c6_witness :
    reportOut 3 [] =
      ("Checked " ++ Nat.repr 3 ++
        " links: no missing internal markdown links found.\n", 0) ∧
    reportOut 1 [("./a.md", "missing", "missing")] =
      ("Checked " ++ Nat.repr 1 ++ " links: " ++
        Nat.repr (List.length [("./a.md", "missing", "missing")]) ++
        " missing internal links:\n\n" ++
        String.join ([("./a.md", "missing", "missing")].map (fun r =>
          "In " ++ r.1 ++ ": -> " ++ r.2.1 ++ "  (resolved: " ++ r.2.2 ++ ")\n")), 2) :=
  ⟨(c6_report_and_exit 3 []).1 rfl,
   (c6_report_and_exit 1 [("./a.md", "missing", "missing")]).2.1 (by simp)⟩


theorem walkChildren_skip (d n : String) (sub es : List (String × FTree))
    (h : skipDirs.contains n = true) :
    walkChildren d ((n, FTree.dir sub) :: es) = walkChildren d es := by
  rw [walkChildren]
  rw [if_pos h]
  rfl

/-- C7: a subtree whose directory name is in the exclusion set contributes
nothing to the walk -- no file below it is ever reported, opened or
scanned for links -- and every document the scan does open is a walked
file whose name ends in `.md`. -/
theorem c7_excluded_never_scanned :
    (∀ (d n : String) (sub es : List (String × FTree)),
      skipDirs.contains n = true →
      walk d ((n, FTree.dir sub) :: es) = walk d es)
    ∧ (∀ (root : List (String × FTree)) (r : String × String × String),
        r ∈ scannedDocs root →
        endsWith2 r.2.1 ".md" = true ∧ r ∈ walk ROOT root) := by
  constructor
  · intro d n sub es h
    unfold walk
    rw [walkChildren_skip d n sub es h]
    have hf : filesOf d ((n, FTree.dir sub) :: es) = filesOf d es := by
      unfold filesOf
      rw [List.filterMap_cons]
    rw [hf]
  · intro root r hr
    unfold scannedDocs at hr
    have := List.mem_filter.mp hr
    exact ⟨this.2, this.1⟩

theorem c7_witness :
    walk "." [(".git", FTree.dir [("secret.md", FTree.file "[a](b)")])] =
      walk "." ([] : List (String × FTree)) ∧
    endsWith2 ((".", "x.md", "") : String × String × String).2.1 ".md" = true :=
  ⟨c7_excluded_never_scanned.1 "." ".git" [("secret.md", FTree.file "[a](b)")] []
      (by decide),
   (c7_excluded_never_scanned.2 [("x.md", FTree.file "")] (".", "x.md", "")
      (by simp [scannedDocs, walk, walkChildren, filesOf, ROOT]; decide)).1⟩

/-- C8: the scan is deterministic: over identical, unchanged file-system
trees two runs produce byte-identical reports, the same scan state and the
same exit status. -/
theorem c8_deterministic (t t' : List (String × FTree)) (h : t = t') :
    runScript t = runScript t' ∧ scanTree t = scanTree t' := by
  subst h
  exact ⟨rfl, rfl⟩

theorem c8_witness :
    runScript [("a.md", FTree.file "[l](b)")] =
      runScript [("a.md", FTree.file "[l](b)")] ∧
    scanTree [("a.md", FTree.file "[l](b)")] =
      scanTree [("a.md", FTree.file "[l](b)")] :=
  c8_deterministic [("a.md", FTree.file "[l](b)")] [("a.md", FTree.file "[l](b)")] rfl


theorem dropWhile_append_all {p : Char → Bool} (l ys : List Char)
    (h : ∀ a ∈ l, p a = true) :
    (l ++ ys).dropWhile p = ys.dropWhile p := by
  induction l with
  | nil => rfl
  | cons a l ih =>
    have ha : p a = true := h a (List.mem_cons_self _ _)
    simp only [List.cons_append, List.dropWhile_cons, ha, if_true]
    exact ih (fun b hb => h b (List.mem_cons_of_mem _ hb))

theorem takeWhile_append_all {p : Char → Bool} (l ys : List Char)
    (h : ∀ a ∈ l, p a = true) :
    (l ++ ys).takeWhile p = l ++ ys.takeWhile p := by
  induction l with
  | nil => rfl
  | cons a l ih =>
    have ha : p a = true := h a (List.mem_cons_self _ _)
    simp only [List.cons_append, List.takeWhile_cons, ha, if_true]
    rw [ih (fun b hb => h b (List.mem_cons_of_mem _ hb))]

theorem matchLink_not_bracket (c : Char) (rest : List Char) (h : c ≠ '[') :
    matchLink (c :: rest) = none := by
  simp [matchLink, h]

theorem matchLink_bracket (alt tgt rest : List Char)
    (ha : ']' ∉ alt) (ht : ')' ∉ tgt) (hne : tgt ≠ []) :
    matchLink ('[' :: (alt ++ ']' :: '(' :: (tgt ++ ')' :: rest))) =
      some (tgt, rest) := by
  have ha' : ∀ a ∈ alt, (fun x => decide (x ≠ ']')) a = true := by
    intro a hmem
    simp only [decide_eq_true_eq]
    intro e; exact ha (e ▸ hmem)
  have ht' : ∀ a ∈ tgt, (fun x => decide (x ≠ ')')) a = true := by
    intro a hmem
    simp only [decide_eq_true_eq]
    intro e; exact ht (e ▸ hmem)
  have e1 : (alt ++ ']' :: '(' :: (tgt ++ ')' :: rest)).dropWhile
      (fun x => decide (x ≠ ']')) = ']' :: '(' :: (tgt ++ ')' :: rest) := by
    rw [dropWhile_append_all _ _ ha']
    simp [List.dropWhile_cons]
  have e2 : (tgt ++ ')' :: rest).dropWhile (fun x => decide (x ≠ ')')) =
      ')' :: rest := by
    rw [dropWhile_append_all _ _ ht']
    simp [List.dropWhile_cons]
  have e3 : (tgt ++ ')' :: rest).takeWhile (fun x => decide (x ≠ ')')) = tgt := by
    rw [takeWhile_append_all _ _ ht']
    simp [List.takeWhile_cons]
  simp only [matchLink, e1, e2, e3]
  simp [hne]

theorem matchLink_empty_target (label rest : List Char) (h1 : ']' ∉ label) :
    matchLink ('[' :: (label ++ ']' :: '(' :: ')' :: rest)) = none := by
  have ha' : ∀ a ∈ label, (fun x => decide (x ≠ ']')) a = true := by
    intro a hmem
    simp only [decide_eq_true_eq]
    intro e; exact h1 (e ▸ hmem)
  have e1 : (label ++ ']' :: '(' :: ')' :: rest).dropWhile
      (fun x => decide (x ≠ ']')) = ']' :: '(' :: ')' :: rest := by
    rw [dropWhile_append_all _ _ ha']
    simp [List.dropWhile_cons]
  have e3 : (')' :: rest).takeWhile (fun x => decide (x ≠ ')')) = [] := by
    simp [List.takeWhile_cons]
  simp only [matchLink, e1, e3]
  simp [List.dropWhile_cons]


theorem findLinks_cons_some (c : Char) (rest tgt after : List Char)
    (h : matchLink (c :: rest) = some (tgt, after)) :
    findLinks (c :: rest) = tgt :: findLinks after := by
  rw [findLinks]
  split
  · rename_i tgt' after' heq
    rw [h] at heq
    injection heq with heq'
    cases heq'
    rfl
  · rename_i heq
    rw [h] at heq
    exact absurd heq (by simp)

theorem findLinks_cons_none (c : Char) (rest : List Char)
    (h : matchLink (c :: rest) = none) :
    findLinks (c :: rest) = findLinks rest := by
  rw [findLinks]
  split
  · rename_i tgt' after' heq
    rw [h] at heq
    exact absurd heq (by simp)
  · rfl

theorem findLinks_append_clean (l tail : List Char) (h : ∀ a ∈ l, a ≠ '[') :
    findLinks (l ++ tail) = findLinks tail := by
  induction l with
  | nil => rfl
  | cons a l ih =>
    rw [List.cons_append,
      findLinks_cons_none a (l ++ tail)
        (matchLink_not_bracket a (l ++ tail) (h a (List.mem_cons_self _ _)))]
    exact ih (fun b hb => h b (List.mem_cons_of_mem _ hb))


theorem classify_skipped_only (fs : FS) (d t : String)
    (h : classify fs d t = RefOutcome.skipped) :
    isExternal (pyStrip t) = true ∨ startsWith2 (pyStrip t) "!" = true ∨
      takeBeforeHash (pyStrip t) = "" := by
  unfold classify at h
  split at h <;> rename_i h1
  · exact Or.inl h1
  · split at h <;> rename_i h2
    · exact Or.inr (Or.inl h2)
    · split at h <;> rename_i h3
      · rcases h3 with h3 | h3
        · exact Or.inr (Or.inr h3)
        · rw [takeBeforeHash_not_hash] at h3
          exact absurd h3 (by simp)
      · split at h <;> exact absurd h (by simp)

/-- C9: on a standard image link `![alt](target)` the extraction pattern
matches the `[alt](target)` portion and captures the target without the
leading `!`; a reference is ever skipped only through the ordinary rules
(external prefix, target itself starting with `!`, or empty pre-fragment
path), so an image reference with a surviving relative target is counted
and resolved like any other link. -/
theorem c9_image_link_extraction (alt tgt rest : List Char)
    (ha : ']' ∉ alt) (ht : ')' ∉ tgt) (hne : tgt ≠ []) :
    findLinks ('!' :: '[' :: (alt ++ ']' :: '(' :: (tgt ++ ')' :: rest))) =
      tgt :: findLinks rest
    ∧ (∀ (fs : FS) (d t : String), classify fs d t = RefOutcome.skipped →
        isExternal (pyStrip t) = true ∨ startsWith2 (pyStrip t) "!" = true ∨
          takeBeforeHash (pyStrip t) = "") := by
  constructor
  · rw [findLinks_cons_none '!' _ (matchLink_not_bracket _ _ (by decide))]
    rw [findLinks_cons_some _ _ tgt rest (matchLink_bracket alt tgt rest ha ht hne)]
  · intro fs d t h
    exact classify_skipped_only fs d t h

theorem c9_witness :
    findLinks ('!' :: '[' :: (['a'] ++ ']' :: '(' :: (['b'] ++ ')' :: []))) =
      ['b'] :: findLinks []
    ∧ (∀ (fs : FS) (d t : String), classify fs d t = RefOutcome.skipped →
        isExternal (pyStrip t) = true ∨ startsWith2 (pyStrip t) "!" = true ∨
          takeBeforeHash (pyStrip t) = "") :=
  c9_image_link_extraction ['a'] ['b'] [] (by decide) (by decide) (by decide)

/-- C10: a link written `[label]()` is never extracted at all -- the
pattern requires at least one character between the parentheses -- so a
document containing it contributes to neither the checked count nor the
unresolved sequence beyond what the rest of its text contributes. -/
theorem c10_empty_target_never_extracted (label rest : List Char)
    (h1 : ']' ∉ label) (h2 : '[' ∉ label) :
    matchLink ('[' :: (label ++ ']' :: '(' :: ')' :: rest)) = none
    ∧ findLinks ('[' :: (label ++ ']' :: '(' :: ')' :: rest)) = findLinks rest
    ∧ (∀ (fs : FS) (d fp : String) (st : ScanState),
        processDocChars fs d fp ('[' :: (label ++ ']' :: '(' :: ')' :: rest)) st =
          processDocChars fs d fp rest st) := by
  have hm := matchLink_empty_target label rest h1
  have hsplit : label ++ ']' :: '(' :: ')' :: rest =
      (label ++ [']', '(', ')']) ++ rest := by
    simp
  have hclean : ∀ a ∈ label ++ [']', '(', ')'], a ≠ '[' := by
    intro a hmem
    rcases List.mem_append.mp hmem with hm' | hm'
    · intro e
      exact h2 (e ▸ hm')
    · have h3 : a = ']' ∨ a = '(' ∨ a = ')' := by simpa using hm'
      rcases h3 with rfl | rfl | rfl <;> decide
  have hf : findLinks ('[' :: (label ++ ']' :: '(' :: ')' :: rest)) =
      findLinks rest := by
    rw [findLinks_cons_none _ _ hm, hsplit, findLinks_append_clean _ _ hclean]
  exact ⟨hm, hf, fun fs d fp st => by unfold processDocChars; rw [hf]⟩

theorem c10_witness :
    matchLink ('[' :: (['a'] ++ ']' :: '(' :: ')' :: ['z'])) = none
    ∧ findLinks ('[' :: (['a'] ++ ']' :: '(' :: ')' :: ['z'])) = findLinks ['z']
    ∧ (∀ (fs : FS) (d fp : String) (st : ScanState),
        processDocChars fs d fp ('[' :: (['a'] ++ ']' :: '(' :: ')' :: ['z'])) st =
          processDocChars fs d fp ['z'] st) :=
  c10_empty_target_never_extracted ['a'] ['z'] (by decide) (by decide)

end LinkCheck
